import Mathlib

/-!
Shallow embedding of the todo canister in
src/icp_todo_api_backend/src/lib.rs.

The canister keeps two pieces of thread-local state: a 128-bit id
counter NEXT_TODO and a BTreeMap from principal strings to vectors of
todos (TODO_BY_USER).  We model the counter as a Nat (the u128 wrap
is unreachable in any feasible execution: it would need 2^128
successful creations) and the map as an association list with
distinct keys; key iteration order is never observed by the program,
so the sorted order of the BTreeMap is irrelevant and new entries are
appended at the end.

Each update method of the canister can trap through a failed assert.
On the Internet Computer a trap aborts the message and rolls back all
state mutations the message performed, so the externally observable
semantics of a method is Store to Option Store (none = trap, state
unchanged).  To reason about the order of checks and mutations inside
a method we first give an execution-level semantics that records the
thread-local state at the moment of the trap, and obtain the
observable semantics by applying the rollback.
-/

abbrev PrincipalName := String

structure Todo where
  id : Nat
  task : List Char
deriving DecidableEq

structure Store where
  counter : Nat
  todos : List (PrincipalName × List Todo)
deriving DecidableEq

def MAX_USERS : Nat := 1000

def MAX_TODO_PER_USER : Nat := 500

def MAX_TODO_CHARS : Nat := 1000

/-- Lookup in the association list modelling the BTreeMap. -/
def mapLookup : List (PrincipalName × List Todo) → PrincipalName → Option (List Todo)
  | [], _ => none
  | (k, v) :: rest, key => if key = k then some v else mapLookup rest key

/-- Apply f to the value stored at key, if present; models get_mut
followed by an in-place mutation.  A missing key leaves the map
unchanged. -/
def mapUpdate : List (PrincipalName × List Todo) → PrincipalName →
    (List Todo → List Todo) → List (PrincipalName × List Todo)
  | [], _, _ => []
  | (k, v) :: rest, key, f =>
      if key = k then (k, f v) :: rest else (k, v) :: mapUpdate rest key f

/-- user_count in lib.rs: the number of keys of TODO_BY_USER. -/
def user_count (s : Store) : Nat := s.todos.length

/-- is_id_sane in lib.rs. -/
def is_id_sane (s : Store) (id : Nat) : Bool :=
  decide (id < MAX_TODO_PER_USER * user_count s)

/-- Execution result of one canister method: either it runs to
completion with a new state, or it traps; trap carries the
thread-local state at the moment of the failed assert. -/
inductive ExecR where
  | ok (s : Store)
  | trap (s : Store)
deriving DecidableEq

/-- The rollback the Internet Computer applies to a trapped message:
all mutations of the message are discarded. -/
def commit : ExecR → Option Store
  | .ok s => some s
  | .trap _ => none

/-- add_todo in lib.rs, execution level.  The text-length assert runs
first, then NEXT_TODO is incremented, then the MAX_USERS check (for a
caller with no entry) and the MAX_TODO_PER_USER check run, and
finally the new todo is pushed. -/
def add_todo_exec (c : PrincipalName) (task : List Char) (s : Store) : ExecR :=
  if task.length ≤ MAX_TODO_CHARS then
    let todo_id := s.counter + 1
    let s1 : Store := { s with counter := todo_id }
    match mapLookup s1.todos c with
    | some userTodos =>
        if userTodos.length < MAX_TODO_PER_USER then
          .ok { s1 with
                todos := mapUpdate s1.todos c
                  (fun v => v ++ [{ id := todo_id, task := task }]) }
        else .trap s1
    | none =>
        if user_count s1 < MAX_USERS then
          if (List.nil (α := Todo)).length < MAX_TODO_PER_USER then
            .ok { s1 with
                  todos := s1.todos ++ [(c, [{ id := todo_id, task := task }])] }
          else .trap { s1 with todos := s1.todos ++ [(c, [])] }
        else .trap s1
  else .trap s

/-- update_todo in lib.rs, execution level: assert the text length,
assert is_id_sane, then replace the task of the first todo of the
caller whose id matches (find followed by an in-place write). -/
def updateFirst (id : Nat) (task : List Char) : List Todo → List Todo
  | [] => []
  | t :: rest =>
      if t.id = id then { t with task := task } :: rest
      else t :: updateFirst id task rest

def update_todo_exec (c : PrincipalName) (id : Nat) (task : List Char)
    (s : Store) : ExecR :=
  if task.length ≤ MAX_TODO_CHARS then
    if is_id_sane s id then
      .ok { s with todos := mapUpdate s.todos c (updateFirst id task) }
    else .trap s
  else .trap s

/-- delete_todo in lib.rs, execution level: assert is_id_sane, then
retain the todos of the caller whose id differs. -/
def delete_todo_exec (c : PrincipalName) (id : Nat) (s : Store) : ExecR :=
  if is_id_sane s id then
    .ok { s with todos := mapUpdate s.todos c (List.filter (fun t => t.id != id)) }
  else .trap s

/-- Observable semantics of add_todo: trap rolls the message back. -/
def add_todo (c : PrincipalName) (task : List Char) (s : Store) : Option Store :=
  commit (add_todo_exec c task s)

/-- Observable semantics of update_todo. -/
def update_todo (c : PrincipalName) (id : Nat) (task : List Char)
    (s : Store) : Option Store :=
  commit (update_todo_exec c id task s)

/-- Observable semantics of delete_todo. -/
def delete_todo (c : PrincipalName) (id : Nat) (s : Store) : Option Store :=
  commit (delete_todo_exec c id s)

/-- get_todos in lib.rs: clone the caller entry or default to the
empty vector; a query, so the state is untouched. -/
def get_todos (c : PrincipalName) (s : Store) : List Todo :=
  (mapLookup s.todos c).getD []

/-- Candid-level reply values of the public methods.  The unit
constructor is the reply of the three update methods (their Rust
signatures return the unit type); todos is the reply of get_todos; a
single-record reply exists in the type so that interface-level
statements about a method returning one Record can be written, but no
method of the code produces it. -/
inductive Reply where
  | unit
  | todos (l : List Todo)
  | todo (t : Todo)
deriving DecidableEq

/-- add_todo together with its reply value: on success the method
returns unit, not the created record. -/
def add_todo_call (c : PrincipalName) (task : List Char) (s : Store) :
    Option (Store × Reply) :=
  (add_todo c task s).map (fun s1 => (s1, Reply.unit))

/-- One externally triggered operation of the canister. -/
inductive Op where
  | add (c : PrincipalName) (t : List Char)
  | update (c : PrincipalName) (id : Nat) (t : List Char)
  | delete (c : PrincipalName) (id : Nat)
  | get (c : PrincipalName)

/-- Result of one operation: none when the message traps. -/
def stepOp : Op → Store → Option Store
  | .add c t, s => add_todo c t s
  | .update c id t, s => update_todo c id t s
  | .delete c id, s => delete_todo c id s
  | .get _, s => some s

/-- Observable next state: a trapped message leaves the state as it
was. -/
def applyOp (op : Op) (s : Store) : Store := (stepOp op s).getD s

/-- Run a sequence of operations. -/
def runFrom (s : Store) : List Op → Store
  | [] => s
  | op :: tr => runFrom (applyOp op s) tr

/-- The empty store the canister starts from. -/
def store0 : Store := { counter := 0, todos := [] }

/-- A state is reachable when some operation sequence leads to it
from the empty store. -/
def Reachable (s : Store) : Prop := ∃ tr, runFrom store0 tr = s

/-- The ids issued along a run: a successful add issues the
post-increment counter value. -/
def issuedFrom (s : Store) : List Op → List Nat
  | [] => []
  | op :: tr =>
      (match op with
       | .add c t => if add_todo c t s = none then [] else [s.counter + 1]
       | _ => []) ++ issuedFrom (applyOp op s) tr

/-! Lemmas about the association-list map. -/

theorem mapLookup_mapUpdate_self (m : List (PrincipalName × List Todo))
    (k : PrincipalName) (f : List Todo → List Todo) :
    mapLookup (mapUpdate m k f) k = (mapLookup m k).map f := by
  induction m with
  | nil => rfl
  | cons p rest ih =>
      obtain ⟨a, v⟩ := p
      by_cases h : k = a
      · simp [mapUpdate, mapLookup, h]
      · simp [mapUpdate, mapLookup, h, ih]

theorem mapLookup_mapUpdate_other (m : List (PrincipalName × List Todo))
    (k k' : PrincipalName) (f : List Todo → List Todo) (h : k' ≠ k) :
    mapLookup (mapUpdate m k f) k' = mapLookup m k' := by
  induction m with
  | nil => rfl
  | cons p rest ih =>
      obtain ⟨a, v⟩ := p
      by_cases hk : k = a
      · subst hk
        simp [mapUpdate, mapLookup, h]
      · by_cases hk' : k' = a
        · simp [mapUpdate, mapLookup, hk, hk']
        · simp [mapUpdate, mapLookup, hk, hk', ih]

theorem mapUpdate_of_lookup_none (m : List (PrincipalName × List Todo))
    (k : PrincipalName) (f : List Todo → List Todo)
    (h : mapLookup m k = none) : mapUpdate m k f = m := by
  induction m with
  | nil => rfl
  | cons p rest ih =>
      obtain ⟨a, v⟩ := p
      by_cases hk : k = a
      · simp [mapLookup, hk] at h
      · simp [mapLookup, hk] at h
        simp [mapUpdate, hk, ih h]

theorem length_mapUpdate (m : List (PrincipalName × List Todo))
    (k : PrincipalName) (f : List Todo → List Todo) :
    (mapUpdate m k f).length = m.length := by
  induction m with
  | nil => rfl
  | cons p rest ih =>
      obtain ⟨a, v⟩ := p
      by_cases hk : k = a
      · simp [mapUpdate, hk]
      · simp [mapUpdate, hk, ih]

theorem mem_mapUpdate (m : List (PrincipalName × List Todo))
    (k : PrincipalName) (f : List Todo → List Todo)
    (p : PrincipalName × List Todo) (hp : p ∈ mapUpdate m k f) :
    p ∈ m ∨ ∃ v, mapLookup m k = some v ∧ p = (k, f v) := by
  induction m with
  | nil => simp [mapUpdate] at hp
  | cons q rest ih =>
      obtain ⟨a, v⟩ := q
      by_cases hk : k = a
      · subst hk
        simp [mapUpdate] at hp
        rcases hp with hp | hp
        · exact Or.inr ⟨v, by simp [mapLookup], hp⟩
        · exact Or.inl (List.mem_cons_of_mem _ hp)
      · simp [mapUpdate, hk] at hp
        rcases hp with hp | hp
        · exact Or.inl (by simp [hp])
        · rcases ih hp with h | ⟨w, hw, hpw⟩
          · exact Or.inl (List.mem_cons_of_mem _ h)
          · exact Or.inr ⟨w, by simpa [mapLookup, hk] using hw, hpw⟩

theorem mapLookup_append (m m' : List (PrincipalName × List Todo))
    (k : PrincipalName) :
    mapLookup (m ++ m') k = (mapLookup m k).orElse (fun _ => mapLookup m' k) := by
  induction m with
  | nil => rfl
  | cons p rest ih =>
      obtain ⟨a, v⟩ := p
      by_cases hk : k = a
      · simp [mapLookup, hk]
      · simp [mapLookup, hk, ih]

/-! Lemmas about updateFirst and filter on todo lists. -/

theorem updateFirst_of_not_mem (id : Nat) (tk : List Char) (l : List Todo)
    (h : id ∉ l.map Todo.id) : updateFirst id tk l = l := by
  induction l with
  | nil => rfl
  | cons t rest ih =>
      simp at h
      have hne : ¬ t.id = id := fun he => h.1 he.symm
      simp only [updateFirst, if_neg hne]
      rw [ih (by simpa using h.2)]

theorem updateFirst_decomp (id : Nat) (tk : List Char) (l1 l2 : List Todo)
    (t0 : Todo) (hid : t0.id = id) (h1 : id ∉ l1.map Todo.id) :
    updateFirst id tk (l1 ++ t0 :: l2) = l1 ++ { t0 with task := tk } :: l2 := by
  induction l1 with
  | nil => simp [updateFirst, hid]
  | cons t rest ih =>
      simp at h1
      have hne : ¬ t.id = id := fun he => h1.1 he.symm
      simp only [List.cons_append, updateFirst, if_neg hne, List.append_eq]
      rw [ih (by simpa using h1.2)]

theorem length_updateFirst (id : Nat) (tk : List Char) (l : List Todo) :
    (updateFirst id tk l).length = l.length := by
  induction l with
  | nil => rfl
  | cons t rest ih =>
      by_cases h : t.id = id
      · simp [updateFirst, h]
      · simp [updateFirst, h, ih]

theorem mem_updateFirst (id : Nat) (tk : List Char) (l : List Todo)
    (x : Todo) (hx : x ∈ updateFirst id tk l) :
    x ∈ l ∨ ∃ y ∈ l, y.id = id ∧ x = { y with task := tk } := by
  induction l with
  | nil => simp [updateFirst] at hx
  | cons t rest ih =>
      by_cases h : t.id = id
      · simp [updateFirst, h] at hx
        rcases hx with hx | hx
        · exact Or.inr ⟨t, by simp, h, by rw [h]; exact hx⟩
        · exact Or.inl (List.mem_cons_of_mem _ hx)
      · simp [updateFirst, h] at hx
        rcases hx with hx | hx
        · exact Or.inl (by simp [hx])
        · rcases ih hx with hm | ⟨y, hy, hyid, hxy⟩
          · exact Or.inl (List.mem_cons_of_mem _ hm)
          · exact Or.inr ⟨y, List.mem_cons_of_mem _ hy, hyid, hxy⟩

theorem mem_updateFirst_of_ne (id : Nat) (tk : List Char) (l : List Todo)
    (x : Todo) (hx : x ∈ l) (hne : x.id ≠ id) : x ∈ updateFirst id tk l := by
  induction l with
  | nil => simp at hx
  | cons t rest ih =>
      rcases List.mem_cons.1 hx with rfl | hx
      · simp [updateFirst, hne]
      · by_cases h : t.id = id
        · simp [updateFirst, h]
          exact Or.inr hx
        · simp [updateFirst, h]
          exact Or.inr (by simpa using ih hx)

theorem filter_ne_of_not_mem (d : Nat) (l : List Todo)
    (h : d ∉ l.map Todo.id) : l.filter (fun t => t.id != d) = l := by
  induction l with
  | nil => rfl
  | cons t rest ih =>
      simp at h
      have ht : (t.id != d) = true := by
        simp only [bne_iff_ne, ne_eq]
        exact fun he => h.1 he.symm
      rw [List.filter_cons, if_pos ht, ih (by simpa using h.2)]

theorem filter_ne_decomp (d : Nat) (l1 l2 : List Todo) (t0 : Todo)
    (hid : t0.id = d) (h1 : d ∉ l1.map Todo.id) (h2 : d ∉ l2.map Todo.id) :
    (l1 ++ t0 :: l2).filter (fun t => t.id != d) = l1 ++ l2 := by
  rw [List.filter_append, filter_ne_of_not_mem d l1 h1]
  have ht : (t0.id != d) = false := by simp [hid]
  rw [List.filter_cons, ht, filter_ne_of_not_mem d l2 h2]
  simp

/-! Characterizations of the four operations. -/

@[simp]
theorem user_count_with_counter (s : Store) (n : Nat) :
    user_count { s with counter := n } = user_count s := rfl

theorem add_todo_some_of (c : PrincipalName) (task : List Char) (s : Store)
    (l : List Todo) (h1 : task.length ≤ MAX_TODO_CHARS)
    (hm : mapLookup s.todos c = some l) (h2 : l.length < MAX_TODO_PER_USER) :
    add_todo c task s = some
      { counter := s.counter + 1,
        todos := mapUpdate s.todos c
          (fun v => v ++ [{ id := s.counter + 1, task := task }]) } := by
  simp [add_todo, add_todo_exec, commit, hm, h1, h2]

theorem add_todo_some_of_new (c : PrincipalName) (task : List Char) (s : Store)
    (h1 : task.length ≤ MAX_TODO_CHARS)
    (hm : mapLookup s.todos c = none) (h3 : user_count s < MAX_USERS) :
    add_todo c task s = some
      { counter := s.counter + 1,
        todos := s.todos ++ [(c, [{ id := s.counter + 1, task := task }])] } := by
  simp [add_todo, add_todo_exec, commit, hm, h1, h3, MAX_TODO_PER_USER]

theorem add_todo_none_of_long (c : PrincipalName) (task : List Char) (s : Store)
    (h1 : MAX_TODO_CHARS < task.length) : add_todo c task s = none := by
  simp [add_todo, add_todo_exec, commit, Nat.not_le.2 h1]

theorem add_todo_none_of_full (c : PrincipalName) (task : List Char) (s : Store)
    (l : List Todo) (hm : mapLookup s.todos c = some l)
    (h2 : MAX_TODO_PER_USER ≤ l.length) : add_todo c task s = none := by
  by_cases h1 : task.length ≤ MAX_TODO_CHARS
  · simp [add_todo, add_todo_exec, commit, hm, h1, Nat.not_lt.2 h2]
  · simp [add_todo, add_todo_exec, commit, h1]

theorem add_todo_none_of_users (c : PrincipalName) (task : List Char) (s : Store)
    (hm : mapLookup s.todos c = none)
    (h3 : MAX_USERS ≤ user_count s) : add_todo c task s = none := by
  by_cases h1 : task.length ≤ MAX_TODO_CHARS
  · simp [add_todo, add_todo_exec, commit, hm, h1, Nat.not_lt.2 h3]
  · simp [add_todo, add_todo_exec, commit, h1]

theorem add_todo_none_iff (c : PrincipalName) (task : List Char) (s : Store) :
    add_todo c task s = none ↔
      MAX_TODO_CHARS < task.length ∨
      (∃ l, mapLookup s.todos c = some l ∧ MAX_TODO_PER_USER ≤ l.length) ∨
      (mapLookup s.todos c = none ∧ MAX_USERS ≤ user_count s) := by
  constructor
  · intro h
    by_cases h1 : task.length ≤ MAX_TODO_CHARS
    · cases hm : mapLookup s.todos c with
      | some l =>
          by_cases h2 : l.length < MAX_TODO_PER_USER
          · rw [add_todo_some_of c task s l h1 hm h2] at h
            cases h
          · exact Or.inr (Or.inl ⟨l, rfl, Nat.not_lt.1 h2⟩)
      | none =>
          by_cases h3 : user_count s < MAX_USERS
          · rw [add_todo_some_of_new c task s h1 hm h3] at h
            cases h
          · exact Or.inr (Or.inr ⟨rfl, Nat.not_lt.1 h3⟩)
    · exact Or.inl (Nat.not_le.1 h1)
  · rintro (h1 | ⟨l, hm, h2⟩ | ⟨hm, h3⟩)
    · exact add_todo_none_of_long c task s h1
    · exact add_todo_none_of_full c task s l hm h2
    · exact add_todo_none_of_users c task s hm h3

theorem add_todo_some_inv (c : PrincipalName) (task : List Char) (s s' : Store)
    (h : add_todo c task s = some s') :
    task.length ≤ MAX_TODO_CHARS ∧ s'.counter = s.counter + 1 ∧
      ((∃ l, mapLookup s.todos c = some l ∧ l.length < MAX_TODO_PER_USER ∧
          s'.todos = mapUpdate s.todos c
            (fun v => v ++ [{ id := s.counter + 1, task := task }])) ∨
       (mapLookup s.todos c = none ∧ user_count s < MAX_USERS ∧
          s'.todos = s.todos ++ [(c, [{ id := s.counter + 1, task := task }])])) := by
  by_cases h1 : task.length ≤ MAX_TODO_CHARS
  · cases hm : mapLookup s.todos c with
    | some l =>
        by_cases h2 : l.length < MAX_TODO_PER_USER
        · rw [add_todo_some_of c task s l h1 hm h2] at h
          injection h with h
          subst h
          exact ⟨h1, rfl, Or.inl ⟨l, rfl, h2, rfl⟩⟩
        · rw [add_todo_none_of_full c task s l hm (Nat.not_lt.1 h2)] at h
          cases h
    | none =>
        by_cases h3 : user_count s < MAX_USERS
        · rw [add_todo_some_of_new c task s h1 hm h3] at h
          injection h with h
          subst h
          exact ⟨h1, rfl, Or.inr ⟨rfl, h3, rfl⟩⟩
        · rw [add_todo_none_of_users c task s hm (Nat.not_lt.1 h3)] at h
          cases h
  · rw [add_todo_none_of_long c task s (Nat.not_le.1 h1)] at h
    cases h

theorem update_todo_some_of (c : PrincipalName) (id : Nat) (task : List Char)
    (s : Store) (h1 : task.length ≤ MAX_TODO_CHARS)
    (h2 : is_id_sane s id = true) :
    update_todo c id task s =
      some { s with todos := mapUpdate s.todos c (updateFirst id task) } := by
  simp [update_todo, update_todo_exec, commit, h1, h2]

theorem update_todo_none_iff (c : PrincipalName) (id : Nat) (task : List Char)
    (s : Store) :
    update_todo c id task s = none ↔
      MAX_TODO_CHARS < task.length ∨ is_id_sane s id = false := by
  by_cases h1 : task.length ≤ MAX_TODO_CHARS
  · by_cases h2 : is_id_sane s id
    · rw [update_todo_some_of c id task s h1 h2]
      simp [h2, Nat.not_lt.2 h1]
    · simp [update_todo, update_todo_exec, commit, h1, h2]
  · simp [update_todo, update_todo_exec, commit, h1]
    exact Or.inl (Nat.not_le.1 h1)

theorem update_todo_some_inv (c : PrincipalName) (id : Nat) (task : List Char)
    (s s' : Store) (h : update_todo c id task s = some s') :
    s'.counter = s.counter ∧
      s'.todos = mapUpdate s.todos c (updateFirst id task) ∧
      task.length ≤ MAX_TODO_CHARS ∧ is_id_sane s id = true := by
  by_cases h1 : task.length ≤ MAX_TODO_CHARS
  · by_cases h2 : is_id_sane s id
    · rw [update_todo_some_of c id task s h1 h2] at h
      injection h with h
      subst h
      exact ⟨rfl, rfl, h1, h2⟩
    · simp [update_todo, update_todo_exec, commit, h1, h2] at h
  · simp [update_todo, update_todo_exec, commit, h1] at h

theorem update_todo_exec_trap (c : PrincipalName) (id : Nat) (task : List Char)
    (s st : Store) (h : update_todo_exec c id task s = .trap st) : st = s := by
  by_cases h1 : task.length ≤ MAX_TODO_CHARS
  · by_cases h2 : is_id_sane s id
    · simp [update_todo_exec, h1, h2] at h
    · simp [update_todo_exec, h1, h2] at h
      exact h.symm
  · simp [update_todo_exec, h1] at h
    exact h.symm

theorem delete_todo_some_of (c : PrincipalName) (id : Nat) (s : Store)
    (h2 : is_id_sane s id = true) :
    delete_todo c id s = some
      { s with todos := mapUpdate s.todos c (List.filter (fun t => t.id != id)) } := by
  simp [delete_todo, delete_todo_exec, commit, h2]

theorem delete_todo_none_iff (c : PrincipalName) (id : Nat) (s : Store) :
    delete_todo c id s = none ↔ is_id_sane s id = false := by
  by_cases h2 : is_id_sane s id
  · rw [delete_todo_some_of c id s h2]
    simp [h2]
  · simp [delete_todo, delete_todo_exec, commit, h2]

theorem delete_todo_some_inv (c : PrincipalName) (id : Nat) (s s' : Store)
    (h : delete_todo c id s = some s') :
    s'.counter = s.counter ∧
      s'.todos = mapUpdate s.todos c (List.filter (fun t => t.id != id)) ∧
      is_id_sane s id = true := by
  by_cases h2 : is_id_sane s id
  · rw [delete_todo_some_of c id s h2] at h
    injection h with h
    subst h
    exact ⟨rfl, rfl, h2⟩
  · simp [delete_todo, delete_todo_exec, commit, h2] at h

theorem delete_todo_exec_trap (c : PrincipalName) (id : Nat) (s st : Store)
    (h : delete_todo_exec c id s = .trap st) : st = s := by
  by_cases h2 : is_id_sane s id
  · simp [delete_todo_exec, h2] at h
  · simp [delete_todo_exec, h2] at h
    exact h.symm

theorem applyOp_of_none (op : Op) (s : Store) (h : stepOp op s = none) :
    applyOp op s = s := by
  simp [applyOp, h]

theorem applyOp_of_some (op : Op) (s s' : Store) (h : stepOp op s = some s') :
    applyOp op s = s' := by
  simp [applyOp, h]

/-! Counter evolution along runs. -/

theorem stepOp_add (c : PrincipalName) (t : List Char) (s : Store) :
    stepOp (Op.add c t) s = add_todo c t s := rfl

theorem stepOp_update (c : PrincipalName) (id : Nat) (t : List Char) (s : Store) :
    stepOp (Op.update c id t) s = update_todo c id t s := rfl

theorem stepOp_delete (c : PrincipalName) (id : Nat) (s : Store) :
    stepOp (Op.delete c id) s = delete_todo c id s := rfl

theorem stepOp_get (c : PrincipalName) (s : Store) :
    stepOp (Op.get c) s = some s := rfl

theorem counter_stepOp (op : Op) (s s' : Store) (h : stepOp op s = some s') :
    s.counter ≤ s'.counter := by
  cases op with
  | add c t =>
      have := (add_todo_some_inv c t s s' h).2.1
      omega
  | update c id t =>
      have := (update_todo_some_inv c id t s s' h).1
      omega
  | delete c id =>
      have := (delete_todo_some_inv c id s s' h).1
      omega
  | get c =>
      injection h with h
      subst h
      exact Nat.le_refl _

theorem counter_applyOp (op : Op) (s : Store) :
    s.counter ≤ (applyOp op s).counter := by
  cases hstep : stepOp op s with
  | none => rw [applyOp_of_none op s hstep]
  | some s' =>
      rw [applyOp_of_some op s s' hstep]
      exact counter_stepOp op s s' hstep

theorem counter_runFrom (s : Store) (tr : List Op) :
    s.counter ≤ (runFrom s tr).counter := by
  induction tr generalizing s with
  | nil => exact Nat.le_refl _
  | cons op tr ih => exact Nat.le_trans (counter_applyOp op s) (ih (applyOp op s))

theorem counter_applyOp_update (c : PrincipalName) (id : Nat) (t : List Char)
    (s : Store) : (applyOp (.update c id t) s).counter = s.counter := by
  cases hstep : stepOp (Op.update c id t) s with
  | none => rw [applyOp_of_none _ s hstep]
  | some s' =>
      rw [applyOp_of_some _ s s' hstep]
      exact (update_todo_some_inv c id t s s' hstep).1

theorem counter_applyOp_delete (c : PrincipalName) (id : Nat) (s : Store) :
    (applyOp (.delete c id) s).counter = s.counter := by
  cases hstep : stepOp (Op.delete c id) s with
  | none => rw [applyOp_of_none _ s hstep]
  | some s' =>
      rw [applyOp_of_some _ s s' hstep]
      exact (delete_todo_some_inv c id s s' hstep).1

theorem counter_applyOp_get (c : PrincipalName) (s : Store) :
    (applyOp (.get c) s).counter = s.counter := rfl

theorem applyOp_add_some (c : PrincipalName) (t : List Char) (s s' : Store)
    (h : add_todo c t s = some s') :
    applyOp (Op.add c t) s = s' :=
  applyOp_of_some (Op.add c t) s s' ((stepOp_add c t s).trans h)

theorem applyOp_add_none (c : PrincipalName) (t : List Char) (s : Store)
    (h : add_todo c t s = none) :
    applyOp (Op.add c t) s = s :=
  applyOp_of_none (Op.add c t) s ((stepOp_add c t s).trans h)

theorem applyOp_delete_some (c : PrincipalName) (id : Nat) (s s' : Store)
    (h : delete_todo c id s = some s') :
    applyOp (Op.delete c id) s = s' :=
  applyOp_of_some (Op.delete c id) s s' ((stepOp_delete c id s).trans h)

theorem runFrom_append (s : Store) (t1 t2 : List Op) :
    runFrom s (t1 ++ t2) = runFrom (runFrom s t1) t2 := by
  induction t1 generalizing s with
  | nil => rfl
  | cons op t1 ih => simp [runFrom, ih]

/-! Properties of the issued ids. -/

theorem issued_gt (s : Store) (tr : List Op) (i : Nat)
    (hi : i ∈ issuedFrom s tr) : s.counter < i := by
  induction tr generalizing s with
  | nil => simp [issuedFrom] at hi
  | cons op tr ih =>
      have hrest : i ∈ issuedFrom (applyOp op s) tr → s.counter < i := by
        intro h
        exact Nat.lt_of_le_of_lt (counter_applyOp op s) (ih (applyOp op s) h)
      cases op with
      | add c t =>
          by_cases hadd : add_todo c t s = none
          · simp [issuedFrom, hadd] at hi
            exact hrest hi
          · simp [issuedFrom, hadd] at hi
            rcases hi with hi | hi
            · omega
            · exact hrest hi
      | update c id t =>
          simp [issuedFrom] at hi
          exact hrest hi
      | delete c id =>
          simp [issuedFrom] at hi
          exact hrest hi
      | get c =>
          simp [issuedFrom] at hi
          exact hrest hi

theorem issued_le (s : Store) (tr : List Op) (i : Nat)
    (hi : i ∈ issuedFrom s tr) : i ≤ (runFrom s tr).counter := by
  induction tr generalizing s with
  | nil => simp [issuedFrom] at hi
  | cons op tr ih =>
      have hrun : runFrom s (op :: tr) = runFrom (applyOp op s) tr := rfl
      rw [hrun]
      cases op with
      | add c t =>
          by_cases hadd : add_todo c t s = none
          · simp [issuedFrom, hadd] at hi
            exact ih (applyOp (Op.add c t) s) hi
          · simp [issuedFrom, hadd] at hi
            rcases hi with hi | hi
            · obtain ⟨s', hs'⟩ := Option.ne_none_iff_exists'.1 hadd
              have hc : (applyOp (Op.add c t) s).counter = s.counter + 1 := by
                rw [applyOp_add_some c t s s' hs']
                exact (add_todo_some_inv c t s s' hs').2.1
              calc i = s.counter + 1 := hi
                _ = (applyOp (Op.add c t) s).counter := hc.symm
                _ ≤ (runFrom (applyOp (Op.add c t) s) tr).counter :=
                    counter_runFrom _ tr
            · exact ih (applyOp (Op.add c t) s) hi
      | update c id t =>
          simp [issuedFrom] at hi
          exact ih (applyOp (Op.update c id t) s) hi
      | delete c id =>
          simp [issuedFrom] at hi
          exact ih (applyOp (Op.delete c id) s) hi
      | get c =>
          simp [issuedFrom] at hi
          exact ih (applyOp (Op.get c) s) hi

theorem issued_pairwise (s : Store) (tr : List Op) :
    (issuedFrom s tr).Pairwise (· < ·) := by
  induction tr generalizing s with
  | nil => simp [issuedFrom]
  | cons op tr ih =>
      cases op with
      | add c t =>
          by_cases hadd : add_todo c t s = none
          · simpa [issuedFrom, hadd] using ih (applyOp (Op.add c t) s)
          · obtain ⟨s', hs'⟩ := Option.ne_none_iff_exists'.1 hadd
            have hc : (applyOp (Op.add c t) s).counter = s.counter + 1 := by
              rw [applyOp_add_some c t s s' hs']
              exact (add_todo_some_inv c t s s' hs').2.1
            simp [issuedFrom, hadd]
            refine ⟨?_, ih (applyOp (Op.add c t) s)⟩
            intro y hy
            have := issued_gt (applyOp (Op.add c t) s) tr y hy
            omega
      | update c id t =>
          simpa [issuedFrom] using ih (applyOp (Op.update c id t) s)
      | delete c id =>
          simpa [issuedFrom] using ih (applyOp (Op.delete c id) s)
      | get c =>
          simpa [issuedFrom] using ih (applyOp (Op.get c) s)

theorem issued_head (s : Store) (tr : List Op) (i : Nat) (rest : List Nat)
    (h : issuedFrom s tr = i :: rest) : i = s.counter + 1 := by
  induction tr generalizing s i rest with
  | nil => simp [issuedFrom] at h
  | cons op tr ih =>
      cases op with
      | add c t =>
          by_cases hadd : add_todo c t s = none
          · simp [issuedFrom, hadd] at h
            have := ih (applyOp (Op.add c t) s) i rest h
            rw [applyOp_add_none c t s hadd] at this
            exact this
          · simp [issuedFrom, hadd] at h
            exact h.1.symm
      | update c id t =>
          simp [issuedFrom] at h
          have := ih (applyOp (Op.update c id t) s) i rest h
          rw [counter_applyOp_update] at this
          exact this
      | delete c id =>
          simp [issuedFrom] at h
          have := ih (applyOp (Op.delete c id) s) i rest h
          rw [counter_applyOp_delete] at this
          exact this
      | get c =>
          simp [issuedFrom] at h
          have := ih (applyOp (Op.get c) s) i rest h
          rw [counter_applyOp_get] at this
          exact this

/-! The capacity invariant of reachable states. -/

/-- Invariant: at most MAX_USERS caller entries, at most
MAX_TODO_PER_USER todos per entry, every stored text within
MAX_TODO_CHARS, and every stored id at most the counter. -/
def StoreInv (s : Store) : Prop :=
  user_count s ≤ MAX_USERS ∧
  ∀ p ∈ s.todos, p.2.length ≤ MAX_TODO_PER_USER ∧
    ∀ t ∈ p.2, t.task.length ≤ MAX_TODO_CHARS ∧ t.id ≤ s.counter

theorem mapLookup_mem (m : List (PrincipalName × List Todo))
    (k : PrincipalName) (v : List Todo) (h : mapLookup m k = some v) :
    (k, v) ∈ m := by
  induction m with
  | nil => simp [mapLookup] at h
  | cons q rest ih =>
      obtain ⟨a, w⟩ := q
      by_cases hk : k = a
      · subst hk
        simp [mapLookup] at h
        simp [h]
      · simp [mapLookup, hk] at h
        exact List.mem_cons_of_mem _ (ih h)

theorem storeInv_store0 : StoreInv store0 := by
  constructor
  · simp [user_count, store0, MAX_USERS]
  · intro p hp
    simp [store0] at hp

theorem storeInv_stepOp (op : Op) (s s' : Store) (h : StoreInv s)
    (hstep : stepOp op s = some s') : StoreInv s' := by
  obtain ⟨hu, hp⟩ := h
  cases op with
  | get c =>
      injection hstep with hs
      subst hs
      exact ⟨hu, hp⟩
  | add c t =>
      obtain ⟨h1, hc, hcase⟩ := add_todo_some_inv c t s s' hstep
      rcases hcase with ⟨l, hm, hlen, htd⟩ | ⟨hm, hcnt, htd⟩
      · refine ⟨?_, ?_⟩
        · show s'.todos.length ≤ MAX_USERS
          rw [htd, length_mapUpdate]
          exact hu
        · intro p hpmem
          rw [htd] at hpmem
          rcases mem_mapUpdate _ _ _ p hpmem with hin | ⟨v, hv, hpv⟩
          · obtain ⟨hl, ht⟩ := hp p hin
            refine ⟨hl, fun t' ht' => ⟨(ht t' ht').1, ?_⟩⟩
            have := (ht t' ht').2
            omega
          · rw [hm] at hv
            injection hv with hv
            subst hv
            subst hpv
            refine ⟨?_, ?_⟩
            · simp only [List.length_append, List.length_singleton]
              omega
            · intro t' ht'
              rcases List.mem_append.1 ht' with ht' | ht'
              · obtain ⟨hl, ht⟩ := hp (c, l) (mapLookup_mem _ _ _ hm)
                refine ⟨(ht t' ht').1, ?_⟩
                have := (ht t' ht').2
                omega
              · simp at ht'
                subst ht'
                refine ⟨h1, ?_⟩
                show s.counter + 1 ≤ s'.counter
                omega
      · refine ⟨?_, ?_⟩
        · show s'.todos.length ≤ MAX_USERS
          rw [htd]
          simp only [List.length_append, List.length_singleton]
          unfold user_count at hcnt
          omega
        · intro p hpmem
          rw [htd] at hpmem
          rcases List.mem_append.1 hpmem with hin | hin
          · obtain ⟨hl, ht⟩ := hp p hin
            refine ⟨hl, fun t' ht' => ⟨(ht t' ht').1, ?_⟩⟩
            have := (ht t' ht').2
            omega
          · simp at hin
            subst hin
            refine ⟨?_, ?_⟩
            · simp [MAX_TODO_PER_USER]
            · intro t' ht'
              simp at ht'
              subst ht'
              refine ⟨h1, ?_⟩
              show s.counter + 1 ≤ s'.counter
              omega
  | update c id t =>
      obtain ⟨hc, htd, h1, _⟩ := update_todo_some_inv c id t s s' hstep
      refine ⟨?_, ?_⟩
      · show s'.todos.length ≤ MAX_USERS
        rw [htd, length_mapUpdate]
        exact hu
      · intro p hpmem
        rw [htd] at hpmem
        rcases mem_mapUpdate _ _ _ p hpmem with hin | ⟨v, hv, hpv⟩
        · obtain ⟨hl, ht⟩ := hp p hin
          refine ⟨hl, fun t' ht' => ⟨(ht t' ht').1, ?_⟩⟩
          have := (ht t' ht').2
          omega
        · subst hpv
          obtain ⟨hl, ht⟩ := hp (c, v) (mapLookup_mem _ _ _ hv)
          refine ⟨?_, ?_⟩
          · simp only [length_updateFirst]
            exact hl
          · intro t' ht'
            rcases mem_updateFirst id t v t' ht' with hin | ⟨y, hy, _, hty⟩
            · refine ⟨(ht t' hin).1, ?_⟩
              have := (ht t' hin).2
              omega
            · subst hty
              refine ⟨h1, ?_⟩
              have := (ht y hy).2
              show y.id ≤ s'.counter
              omega
  | delete c id =>
      obtain ⟨hc, htd, _⟩ := delete_todo_some_inv c id s s' hstep
      refine ⟨?_, ?_⟩
      · show s'.todos.length ≤ MAX_USERS
        rw [htd, length_mapUpdate]
        exact hu
      · intro p hpmem
        rw [htd] at hpmem
        rcases mem_mapUpdate _ _ _ p hpmem with hin | ⟨v, hv, hpv⟩
        · obtain ⟨hl, ht⟩ := hp p hin
          refine ⟨hl, fun t' ht' => ⟨(ht t' ht').1, ?_⟩⟩
          have := (ht t' ht').2
          omega
        · subst hpv
          obtain ⟨hl, ht⟩ := hp (c, v) (mapLookup_mem _ _ _ hv)
          refine ⟨?_, ?_⟩
          · exact Nat.le_trans (List.length_filter_le _ v) hl
          · intro t' ht'
            have hin := List.mem_of_mem_filter ht'
            refine ⟨(ht t' hin).1, ?_⟩
            have := (ht t' hin).2
            omega

theorem storeInv_applyOp (op : Op) (s : Store) (h : StoreInv s) : StoreInv (applyOp op s) := by
  cases hstep : stepOp op s with
  | none => rw [applyOp_of_none op s hstep]; exact h
  | some s' =>
      rw [applyOp_of_some op s s' hstep]
      exact storeInv_stepOp op s s' h hstep

theorem storeInv_runFrom (s : Store) (tr : List Op) (h : StoreInv s) :
    StoreInv (runFrom s tr) := by
  induction tr generalizing s with
  | nil => exact h
  | cons op tr ih => exact ih (applyOp op s) (storeInv_applyOp op s h)

theorem reachable_storeInv (s : Store) (h : Reachable s) : StoreInv s := by
  obtain ⟨tr, htr⟩ := h
  rw [← htr]
  exact storeInv_runFrom store0 tr storeInv_store0

/-! Concrete states used to instantiate the theorems. -/

def nameA : PrincipalName := "A"

def nameB : PrincipalName := "B"

def tHi : List Char := ['h', 'i']

def tr1 : List Op := [Op.add nameA tHi]

def store1 : Store :=
  { counter := 1, todos := [(nameA, [{ id := 1, task := tHi }])] }

theorem runFrom_tr1 : runFrom store0 tr1 = store1 := by decide

/-! Claim theorems. -/

/-- C9: get_todos returns exactly the caller entry in insertion
order, the empty sequence when the caller has no entry, it never
fails (an unknown caller yields the empty sequence, not a trap), and
the store is unchanged. -/
theorem C9_get_todos_spec (s : Store) (c : PrincipalName) :
    (∀ l, mapLookup s.todos c = some l → get_todos c s = l) ∧
    (mapLookup s.todos c = none → get_todos c s = []) ∧
    stepOp (Op.get c) s = some s := by
  refine ⟨?_, ?_, rfl⟩
  · intro l hl
    simp [get_todos, hl]
  · intro hl
    simp [get_todos, hl]

theorem C9_get_todos_spec_witness :
    get_todos nameA store1 = [{ id := 1, task := tHi }] ∧
    get_todos nameB store1 = [] :=
  ⟨(C9_get_todos_spec store1 nameA).1 [{ id := 1, task := tHi }] (by decide),
   (C9_get_todos_spec store1 nameB).2.1 (by decide)⟩

/-- C6: is_id_sane accepts exactly the ids below MAX_TODO_PER_USER
times the user count at call time; update_todo aborts exactly when
its text exceeds MAX_TODO_CHARS (counted in scalar values) or its id
fails the check, delete_todo aborts exactly when its id fails the
check, and in both cases the trap happens with the state still
unmutated. -/
theorem C6_sanity_aborts (s : Store) (c : PrincipalName) (id : Nat)
    (task : List Char) :
    (is_id_sane s id = true ↔ id < MAX_TODO_PER_USER * user_count s) ∧
    (update_todo c id task s = none ↔
      MAX_TODO_CHARS < task.length ∨ is_id_sane s id = false) ∧
    (delete_todo c id s = none ↔ is_id_sane s id = false) ∧
    (∀ st, update_todo_exec c id task s = .trap st → st = s) ∧
    (∀ st, delete_todo_exec c id s = .trap st → st = s) :=
  ⟨by simp [is_id_sane],
   update_todo_none_iff c id task s,
   delete_todo_none_iff c id s,
   fun st h => update_todo_exec_trap c id task s st h,
   fun st h => delete_todo_exec_trap c id s st h⟩

theorem C6_sanity_aborts_witness :
    (is_id_sane store1 600 = true ↔
      600 < MAX_TODO_PER_USER * user_count store1) ∧
    update_todo nameA 600 tHi store1 = none ∧
    delete_todo nameA 600 store1 = none ∧
    store1 = store1 :=
  ⟨(C6_sanity_aborts store1 nameA 600 tHi).1,
   (C6_sanity_aborts store1 nameA 600 tHi).2.1.2 (Or.inr (by decide)),
   (C6_sanity_aborts store1 nameA 600 tHi).2.2.1.2 (by decide),
   (C6_sanity_aborts store1 nameA 600 tHi).2.2.2.1 store1 (by decide)⟩

/-- C2: every state reachable from the empty store satisfies the
capacity invariants: at most MAX_USERS caller entries, at most
MAX_TODO_PER_USER todos in each entry, and every stored text within
MAX_TODO_CHARS characters. -/
theorem C2_capacity (s : Store) (h : Reachable s) :
    user_count s ≤ MAX_USERS ∧
    ∀ p ∈ s.todos, p.2.length ≤ MAX_TODO_PER_USER ∧
      ∀ t ∈ p.2, t.task.length ≤ MAX_TODO_CHARS := by
  obtain ⟨hu, hp⟩ := reachable_storeInv s h
  exact ⟨hu, fun p hpm =>
    ⟨(hp p hpm).1, fun t ht => ((hp p hpm).2 t ht).1⟩⟩

theorem C2_capacity_witness :
    user_count store1 ≤ MAX_USERS ∧
    ∀ p ∈ store1.todos, p.2.length ≤ MAX_TODO_PER_USER ∧
      ∀ t ∈ p.2, t.task.length ≤ MAX_TODO_CHARS :=
  C2_capacity store1 ⟨tr1, runFrom_tr1⟩

/-- C3 is false as stated: after a successful creation the stored
counter NEXT_TODO equals the id it just issued, so it is not strictly
greater than every id ever issued.  Concretely, one add from the
empty store issues id 1 and leaves the counter at 1. -/
theorem C3_counterexample :
    ¬ ∀ i ∈ issuedFrom store0 tr1, i < (runFrom store0 tr1).counter := by
  decide

/-- C3 (amended): along any run from the empty store the stored
counter is greater than or equal to every id ever issued (it equals
the most recently issued id), and the issued ids are strictly
increasing, so an id is never issued twice, even after the record
carrying it is deleted. -/
theorem C3_counter_bound (tr : List Op) :
    (∀ i ∈ issuedFrom store0 tr, i ≤ (runFrom store0 tr).counter) ∧
    (issuedFrom store0 tr).Pairwise (· < ·) :=
  ⟨fun i hi => issued_le store0 tr i hi, issued_pairwise store0 tr⟩

theorem C3_counter_bound_witness :
    (1 : Nat) ≤ (runFrom store0 tr1).counter ∧
    (issuedFrom store0 tr1).Pairwise (· < ·) :=
  ⟨(C3_counter_bound tr1).1 1 (by decide), (C3_counter_bound tr1).2⟩

/-- C4: allocation returns the post-increment counter value; the
first successful creation from the empty store (by any caller, after
any failed or non-creating operations) issues id 1, and the issued
ids are strictly increasing across all callers combined. -/
theorem C4_allocation (tr : List Op) (c : PrincipalName) (t : List Char)
    (s s' : Store) :
    (add_todo c t s = some s' → s'.counter = s.counter + 1) ∧
    (∀ i rest, issuedFrom store0 tr = i :: rest → i = 1) ∧
    (issuedFrom store0 tr).Pairwise (· < ·) := by
  refine ⟨fun h => (add_todo_some_inv c t s s' h).2.1, ?_,
    issued_pairwise store0 tr⟩
  intro i rest h
  have := issued_head store0 tr i rest h
  simpa [store0] using this

theorem C4_allocation_witness :
    store1.counter = store0.counter + 1 ∧ (1 : Nat) = 1 ∧
    (issuedFrom store0 tr1).Pairwise (· < ·) :=
  ⟨(C4_allocation tr1 nameA tHi store0 store1).1 (by decide),
   (C4_allocation tr1 nameA tHi store0 store1).2.1 1 [] (by decide),
   (C4_allocation tr1 nameA tHi store0 store1).2.2⟩

/-! Trap-state characterization of add_todo and further map lemmas. -/

theorem add_todo_exec_trap_inv (c : PrincipalName) (task : List Char)
    (s st : Store) (h : add_todo_exec c task s = .trap st) :
    (MAX_TODO_CHARS < task.length ∧ st = s) ∨
    (task.length ≤ MAX_TODO_CHARS ∧ st = { s with counter := s.counter + 1 } ∧
      ((∃ l, mapLookup s.todos c = some l ∧ MAX_TODO_PER_USER ≤ l.length) ∨
       (mapLookup s.todos c = none ∧ MAX_USERS ≤ user_count s))) := by
  by_cases h1 : task.length ≤ MAX_TODO_CHARS
  · cases hm : mapLookup s.todos c with
    | some l =>
        by_cases h2 : l.length < MAX_TODO_PER_USER
        · simp [add_todo_exec, h1, hm, h2] at h
        · simp [add_todo_exec, h1, hm, h2] at h
          exact Or.inr ⟨h1, h.symm, Or.inl ⟨l, rfl, Nat.not_lt.1 h2⟩⟩
    | none =>
        by_cases h3 : user_count s < MAX_USERS
        · simp [add_todo_exec, h1, hm, h3, MAX_TODO_PER_USER] at h
        · simp [add_todo_exec, h1, hm, h3] at h
          exact Or.inr ⟨h1, h.symm, Or.inr ⟨rfl, Nat.not_lt.1 h3⟩⟩
  · simp [add_todo_exec, h1] at h
    exact Or.inl ⟨Nat.not_le.1 h1, h.symm⟩

theorem mapUpdate_congr_id (m : List (PrincipalName × List Todo))
    (k : PrincipalName) (f : List Todo → List Todo) (v : List Todo)
    (hv : mapLookup m k = some v) (hf : f v = v) : mapUpdate m k f = m := by
  induction m with
  | nil => rfl
  | cons q rest ih =>
      obtain ⟨a, w⟩ := q
      by_cases hk : k = a
      · subst hk
        simp [mapLookup] at hv
        subst hv
        simp [mapUpdate, hf]
      · simp [mapLookup, hk] at hv
        simp [mapUpdate, hk, ih hv]

def tLong : List Char := List.replicate 1001 'x'

def fullList : List Todo :=
  (List.range MAX_TODO_PER_USER).map (fun i => { id := i + 1, task := [] })

def storeFull : Store :=
  { counter := MAX_TODO_PER_USER, todos := [(nameA, fullList)] }

/-- C1 (corrected): a creation with a violated precondition traps,
and the trap rolls the whole message back, so after the aborted call
the counter and the mapping are unchanged and the abort happens
exactly on the listed violations; the mapping is never mutated before
the trap and the text-length check runs before every mutation, but
when the user-ceiling or the per-user-ceiling check fails, it is
evaluated with the id counter already incremented, not strictly
before any mutation. -/
theorem C1_add_abort (s : Store) (c : PrincipalName) (task : List Char) :
    (add_todo c task s = none ↔
      MAX_TODO_CHARS < task.length ∨
      (∃ l, mapLookup s.todos c = some l ∧ MAX_TODO_PER_USER ≤ l.length) ∨
      (mapLookup s.todos c = none ∧ MAX_USERS ≤ user_count s)) ∧
    (add_todo c task s = none → applyOp (Op.add c task) s = s) ∧
    (∀ st, add_todo_exec c task s = .trap st → st.todos = s.todos) ∧
    (MAX_TODO_CHARS < task.length → add_todo_exec c task s = .trap s) ∧
    (∀ st, add_todo_exec c task s = .trap st → task.length ≤ MAX_TODO_CHARS →
      st.counter = s.counter + 1) := by
  refine ⟨add_todo_none_iff c task s, fun h => applyOp_add_none c task s h,
    ?_, ?_, ?_⟩
  · intro st h
    rcases add_todo_exec_trap_inv c task s st h with ⟨_, rfl⟩ | ⟨_, rfl, _⟩ <;>
      rfl
  · intro h
    simp [add_todo_exec, Nat.not_le.2 h]
  · intro st h h1
    rcases add_todo_exec_trap_inv c task s st h with ⟨hlt, _⟩ | ⟨_, rfl, _⟩
    · omega
    · rfl

theorem C1_add_abort_witness :
    add_todo nameA tLong store0 = none ∧
    applyOp (Op.add nameA tLong) store0 = store0 ∧
    add_todo_exec nameA tLong store0 = .trap store0 := by
  have h := C1_add_abort store0 nameA tLong
  have hlen : MAX_TODO_CHARS < tLong.length := by
    show MAX_TODO_CHARS < (List.replicate 1001 'x').length
    rw [List.length_replicate]
    decide
  exact ⟨h.1.2 (Or.inl hlen), h.2.1 (h.1.2 (Or.inl hlen)), h.2.2.2.1 hlen⟩

/-- C1 counterexample: when caller nameA already holds
MAX_TODO_PER_USER todos, add_todo traps on the per-user admission
check with the id counter already incremented, so that admission
check was evaluated after a mutation, refuting the claim that every
admission check is evaluated strictly before any mutation. -/
theorem C1_counterexample :
    add_todo_exec nameA tHi storeFull =
      ExecR.trap { storeFull with counter := storeFull.counter + 1 } ∧
    { storeFull with counter := storeFull.counter + 1 } ≠ storeFull := by
  constructor
  · have hm : mapLookup storeFull.todos nameA = some fullList := by
      simp [storeFull, mapLookup]
    have hlen : fullList.length = MAX_TODO_PER_USER := by
      simp [fullList]
    simp [add_todo_exec, hm, hlen, tHi, MAX_TODO_CHARS]
  · intro h
    have := congrArg Store.counter h
    simp at this

/-- C5 (corrected): for an admissible text, add_todo appends a
record carrying the fresh id and the given text to the caller entry,
creating the entry for a brand-new caller, but the method replies
unit to the caller: the created Record is not returned. -/
theorem C5_create (s : Store) (c : PrincipalName) (task : List Char)
    (h1 : task.length ≤ MAX_TODO_CHARS) :
    (∀ l, mapLookup s.todos c = some l → l.length < MAX_TODO_PER_USER →
      ∃ s', add_todo_call c task s = some (s', Reply.unit) ∧
        mapLookup s'.todos c =
          some (l ++ [{ id := s.counter + 1, task := task }])) ∧
    (mapLookup s.todos c = none → user_count s < MAX_USERS →
      ∃ s', add_todo_call c task s = some (s', Reply.unit) ∧
        mapLookup s'.todos c = some [{ id := s.counter + 1, task := task }]) := by
  constructor
  · intro l hm hlen
    refine ⟨{ counter := s.counter + 1,
              todos := mapUpdate s.todos c
                (fun v => v ++ [{ id := s.counter + 1, task := task }]) },
            ?_, ?_⟩
    · simp [add_todo_call, add_todo_some_of c task s l h1 hm hlen]
    · show mapLookup (mapUpdate s.todos c _) c = _
      rw [mapLookup_mapUpdate_self, hm]
      rfl
  · intro hm hcnt
    refine ⟨{ counter := s.counter + 1,
              todos := s.todos ++ [(c, [{ id := s.counter + 1, task := task }])] },
            ?_, ?_⟩
    · simp [add_todo_call, add_todo_some_of_new c task s h1 hm hcnt]
    · show mapLookup (s.todos ++ [(c, [{ id := s.counter + 1, task := task }])]) c = _
      rw [mapLookup_append, hm]
      simp [mapLookup]

theorem C5_create_witness :
    ∃ s', add_todo_call nameA tHi store0 = some (s', Reply.unit) ∧
      mapLookup s'.todos nameA = some [{ id := 1, task := tHi }] := by
  have h := (C5_create store0 nameA tHi (by decide)).2 (by decide) (by decide)
  simpa [store0] using h

/-- C5 counterexample: the creation call from the empty store creates
the record with id 1 and text tHi (visible through get_todos), yet
its reply is unit, not that Record, refuting the claim that the
creation operation returns the newly created Record to the caller. -/
theorem C5_counterexample :
    (add_todo_call nameA tHi store0).map Prod.snd = some Reply.unit ∧
    get_todos nameA (runFrom store0 tr1) = [{ id := 1, task := tHi }] ∧
    Reply.unit ≠ Reply.todo { id := 1, task := tHi } := by
  refine ⟨by decide, by decide, ?_⟩
  intro h
  cases h

/-- C7: when the caller entry contains the addressed record (and the
text and id pass the checks), update_todo replaces only that record
text in place, keeping its id, every sibling record and their order,
and every other caller entry; when the caller has no record with that
id (entry without a match, or no entry at all) the call is a silent
no-op returning the store unchanged. -/
theorem C7_update_frame (s : Store) (c : PrincipalName) (id : Nat)
    (task : List Char) (h1 : task.length ≤ MAX_TODO_CHARS)
    (h2 : is_id_sane s id = true) :
    (∀ l1 t0 l2, mapLookup s.todos c = some (l1 ++ t0 :: l2) → t0.id = id →
      id ∉ l1.map Todo.id →
      ∃ s', update_todo c id task s = some s' ∧ s'.counter = s.counter ∧
        mapLookup s'.todos c = some (l1 ++ { t0 with task := task } :: l2) ∧
        ∀ c', c' ≠ c → mapLookup s'.todos c' = mapLookup s.todos c') ∧
    (∀ l, mapLookup s.todos c = some l → id ∉ l.map Todo.id →
      update_todo c id task s = some s) ∧
    (mapLookup s.todos c = none → update_todo c id task s = some s) := by
  refine ⟨?_, ?_, ?_⟩
  · intro l1 t0 l2 hm hid hl1
    refine ⟨{ s with todos := mapUpdate s.todos c (updateFirst id task) },
      update_todo_some_of c id task s h1 h2, rfl, ?_, ?_⟩
    · show mapLookup (mapUpdate s.todos c (updateFirst id task)) c = _
      rw [mapLookup_mapUpdate_self, hm]
      simp [updateFirst_decomp id task l1 l2 t0 hid hl1]
    · intro c' hc'
      show mapLookup (mapUpdate s.todos c (updateFirst id task)) c' = _
      exact mapLookup_mapUpdate_other s.todos c c' (updateFirst id task) hc'
  · intro l hm hl
    rw [update_todo_some_of c id task s h1 h2]
    rw [mapUpdate_congr_id s.todos c (updateFirst id task) l hm
      (updateFirst_of_not_mem id task l hl)]
  · intro hm
    rw [update_todo_some_of c id task s h1 h2]
    rw [mapUpdate_of_lookup_none s.todos c (updateFirst id task) hm]

theorem C7_update_frame_witness :
    (∃ s', update_todo nameA 1 tHi store1 = some s' ∧
      s'.counter = store1.counter ∧
      mapLookup s'.todos nameA =
        some ([] ++ { id := 1, task := tHi } :: []) ∧
      ∀ c', c' ≠ nameA → mapLookup s'.todos c' = mapLookup store1.todos c') ∧
    update_todo nameB 2 tHi store1 = some store1 := by
  constructor
  · exact (C7_update_frame store1 nameA 1 tHi (by decide) (by decide)).1
      [] { id := 1, task := tHi } [] (by decide) rfl (by decide)
  · exact (C7_update_frame store1 nameB 2 tHi (by decide) (by decide)).2.2
      (by decide)

/-- C8: for an id passing the plausibility check, delete_todo removes
exactly the matching record of the caller, keeping all other records,
their ids and their order, and every other caller entry; with no
matching record it is a silent no-op; and the deleted id is never
issued by any later creation. -/
theorem C8_delete (s : Store) (c : PrincipalName) (d : Nat)
    (hs : Reachable s) (h2 : is_id_sane s d = true) :
    (∀ l1 t0 l2, mapLookup s.todos c = some (l1 ++ t0 :: l2) → t0.id = d →
      d ∉ l1.map Todo.id → d ∉ l2.map Todo.id →
      ∃ s', delete_todo c d s = some s' ∧ s'.counter = s.counter ∧
        mapLookup s'.todos c = some (l1 ++ l2) ∧
        (∀ c', c' ≠ c → mapLookup s'.todos c' = mapLookup s.todos c') ∧
        ∀ tr, d ∉ issuedFrom s' tr) ∧
    (∀ l, mapLookup s.todos c = some l → d ∉ l.map Todo.id →
      delete_todo c d s = some s) ∧
    (mapLookup s.todos c = none → delete_todo c d s = some s) := by
  refine ⟨?_, ?_, ?_⟩
  · intro l1 t0 l2 hm hid hl1 hl2
    have hd_le : d ≤ s.counter := by
      have hInv := reachable_storeInv s hs
      have hmem := mapLookup_mem _ _ _ hm
      have ht0 : t0 ∈ l1 ++ t0 :: l2 := by simp
      have := ((hInv.2 _ hmem).2 t0 ht0).2
      omega
    refine ⟨_, delete_todo_some_of c d s h2, rfl, ?_, ?_, ?_⟩
    · show mapLookup (mapUpdate s.todos c _) c = _
      rw [mapLookup_mapUpdate_self, hm]
      simp [filter_ne_decomp d l1 l2 t0 hid hl1 hl2]
    · intro c' hc'
      show mapLookup (mapUpdate s.todos c _) c' = _
      exact mapLookup_mapUpdate_other s.todos c c' _ hc'
    · intro tr hd
      have := issued_gt _ tr d hd
      simp only [] at this
      omega
  · intro l hm hl
    rw [delete_todo_some_of c d s h2]
    rw [mapUpdate_congr_id s.todos c _ l hm (filter_ne_of_not_mem d l hl)]
  · intro hm
    rw [delete_todo_some_of c d s h2]
    rw [mapUpdate_of_lookup_none s.todos c _ hm]

theorem C8_delete_witness :
    (∃ s', delete_todo nameA 1 store1 = some s' ∧
      s'.counter = store1.counter ∧
      mapLookup s'.todos nameA = some ([] ++ []) ∧
      (∀ c', c' ≠ nameA → mapLookup s'.todos c' = mapLookup store1.todos c') ∧
      ∀ tr, (1 : Nat) ∉ issuedFrom s' tr) ∧
    delete_todo nameB 1 store1 = some store1 := by
  constructor
  · exact (C8_delete store1 nameA 1 ⟨tr1, runFrom_tr1⟩ (by decide)).1
      [] { id := 1, task := tHi } [] (by decide) rfl (by decide) (by decide)
  · exact (C8_delete store1 nameB 1 ⟨tr1, runFrom_tr1⟩ (by decide)).2.2
      (by decide)

/-! Construction of a reachable state holding a permanently stuck
record: register MAX_USERS callers, then let the first caller create
and delete todos until the counter reaches
MAX_TODO_PER_USER * MAX_USERS, and create once more.  The resulting
record has an id that is at least MAX_TODO_PER_USER times the user
count in every reachable future state, so is_id_sane rejects it
forever. -/

def uname (i : Nat) : PrincipalName := String.mk (List.replicate i 'a')

theorem uname_inj (a b : Nat) (h : uname a = uname b) : a = b := by
  have hd : List.replicate a 'a' = List.replicate b 'a' := congrArg String.data h
  have hlen := congrArg List.length hd
  rw [List.length_replicate, List.length_replicate] at hlen
  exact hlen

def tA : List Char := []

theorem tA_len : tA.length ≤ MAX_TODO_CHARS := by decide

def phase1Store (i : Nat) : Store :=
  { counter := i,
    todos := (List.range i).map
      (fun j => (uname (j+1), [{ id := j+1, task := tA }])) }

theorem mapLookup_not_mem_keys (m : List (PrincipalName × List Todo))
    (key : PrincipalName) (h : key ∉ m.map Prod.fst) :
    mapLookup m key = none := by
  induction m with
  | nil => rfl
  | cons p rest ih =>
      obtain ⟨a, v⟩ := p
      simp at h
      simp [mapLookup, h.1, ih (by simpa using h.2)]

theorem phase1_lookup_none (i k : Nat) (hk : i < k) :
    mapLookup (phase1Store i).todos (uname k) = none := by
  apply mapLookup_not_mem_keys
  intro hmem
  simp [phase1Store, List.mem_map] at hmem
  obtain ⟨j, hj, hu⟩ := hmem
  have := uname_inj (j+1) k hu
  omega

theorem phase1_step (i : Nat) (hi : i < MAX_USERS) :
    applyOp (Op.add (uname (i+1)) tA) (phase1Store i) = phase1Store (i+1) := by
  have hm : mapLookup (phase1Store i).todos (uname (i+1)) = none :=
    phase1_lookup_none i (i+1) (by omega)
  have hcnt : user_count (phase1Store i) < MAX_USERS := by
    simpa [user_count, phase1Store] using hi
  have hadd := add_todo_some_of_new (uname (i+1)) tA (phase1Store i)
    tA_len hm hcnt
  rw [applyOp_add_some _ _ _ _ hadd]
  simp only [phase1Store]
  rw [List.range_succ, List.map_append]
  rfl

theorem phase1_reach (i : Nat) (hi : i ≤ MAX_USERS) :
    ∃ tr, runFrom store0 tr = phase1Store i := by
  induction i with
  | zero => exact ⟨[], rfl⟩
  | succ i ih =>
      obtain ⟨tr, htr⟩ := ih (by omega)
      refine ⟨tr ++ [Op.add (uname (i+1)) tA], ?_⟩
      rw [runFrom_append, htr]
      exact phase1_step i (by omega)

def mTail : List (PrincipalName × List Todo) :=
  (List.range (MAX_USERS - 1)).map
    (fun j => (uname (j+2), [{ id := j+2, task := tA }]))

def phase2Store (c : Nat) : Store :=
  { counter := c, todos := (uname 1, [{ id := 1, task := tA }]) :: mTail }

theorem phase1_todos_succ (n : Nat) :
    phase1Store (n+1) =
      { counter := n+1,
        todos := (uname 1, [{ id := 1, task := tA }]) ::
          (List.range n).map
            (fun j => (uname (j+2), [{ id := j+2, task := tA }])) } := by
  unfold phase1Store
  congr 1
  rw [List.range_succ_eq_map, List.map_cons, List.map_map]
  rfl

theorem phase1_eq_phase2 : phase1Store MAX_USERS = phase2Store MAX_USERS := by
  have h := phase1_todos_succ (MAX_USERS - 1)
  have harith : MAX_USERS - 1 + 1 = MAX_USERS := by decide
  rw [harith] at h
  rw [h]
  rfl

theorem user_count_phase2 (c : Nat) : user_count (phase2Store c) = MAX_USERS := by
  simp [user_count, phase2Store, mTail, MAX_USERS]

theorem phase2_lookup (c : Nat) :
    mapLookup (phase2Store c).todos (uname 1) =
      some [{ id := 1, task := tA }] := by
  simp [phase2Store, mapLookup]

theorem phase2_step (c : Nat) (hc1 : 1 ≤ c)
    (hc2 : c + 1 < MAX_TODO_PER_USER * MAX_USERS) :
    runFrom (phase2Store c) [Op.add (uname 1) tA, Op.delete (uname 1) (c+1)] =
      phase2Store (c+1) := by
  have hadd := add_todo_some_of (uname 1) tA (phase2Store c)
    [{ id := 1, task := tA }] tA_len (phase2_lookup c)
    (by simp [MAX_TODO_PER_USER])
  have hmid : applyOp (Op.add (uname 1) tA) (phase2Store c) =
      { counter := c + 1,
        todos := (uname 1, [{ id := 1, task := tA },
          { id := c + 1, task := tA }]) :: mTail } := by
    rw [applyOp_add_some _ _ _ _ hadd]
    simp [phase2Store, mapUpdate]
  have hcount : user_count
      ({ counter := c + 1,
         todos := (uname 1, [{ id := 1, task := tA },
           { id := c + 1, task := tA }]) :: mTail } : Store) = MAX_USERS := by
    simp [user_count, mTail, MAX_USERS]
  have hsane : is_id_sane
      ({ counter := c + 1,
         todos := (uname 1, [{ id := 1, task := tA },
           { id := c + 1, task := tA }]) :: mTail } : Store) (c+1) = true := by
    simp [is_id_sane, hcount]
    exact hc2
  have hdel := delete_todo_some_of (uname 1) (c+1) _ hsane
  have hfil : List.filter (fun (t : Todo) => t.id != (c+1))
      ([{ id := 1, task := tA }, { id := c + 1, task := tA }] : List Todo) =
      [{ id := 1, task := tA }] := by
    have h1 : (({ id := 1, task := tA } : Todo).id != (c+1)) = true := by
      simp
      omega
    have h2 : (({ id := c + 1, task := tA } : Todo).id != (c+1)) = false := by
      simp
    rw [List.filter_cons, List.filter_cons, h1, h2]
    simp
  show applyOp (Op.delete (uname 1) (c+1))
      (applyOp (Op.add (uname 1) tA) (phase2Store c)) = phase2Store (c+1)
  rw [hmid, applyOp_delete_some _ _ _ _ hdel]
  simp [mapUpdate, hfil, phase2Store]

theorem phase2_reach (c : Nat) (hc1 : MAX_USERS ≤ c)
    (hc2 : c + 1 ≤ MAX_TODO_PER_USER * MAX_USERS) :
    ∃ tr, runFrom store0 tr = phase2Store c := by
  induction c, hc1 using Nat.le_induction with
  | base =>
      obtain ⟨tr, htr⟩ := phase1_reach MAX_USERS (Nat.le_refl _)
      exact ⟨tr, by rw [htr, phase1_eq_phase2]⟩
  | succ c hc ih =>
      obtain ⟨tr, htr⟩ := ih (by omega)
      refine ⟨tr ++ [Op.add (uname 1) tA, Op.delete (uname 1) (c+1)], ?_⟩
      rw [runFrom_append, htr]
      refine phase2_step c ?_ (by omega)
      have hm1 : 1 ≤ MAX_USERS := by decide
      omega

def stuckId : Nat := MAX_TODO_PER_USER * MAX_USERS

def stuckTodo : Todo := { id := stuckId, task := tA }

def stuckStore : Store :=
  { counter := stuckId,
    todos := (uname 1, [{ id := 1, task := tA }, stuckTodo]) :: mTail }

theorem stuck_reach : Reachable stuckStore := by
  have hb1 : MAX_USERS ≤ MAX_TODO_PER_USER * MAX_USERS - 1 := by decide
  have hb2 : MAX_TODO_PER_USER * MAX_USERS - 1 + 1 ≤
      MAX_TODO_PER_USER * MAX_USERS := by decide
  obtain ⟨tr, htr⟩ := phase2_reach (MAX_TODO_PER_USER * MAX_USERS - 1) hb1 hb2
  refine ⟨tr ++ [Op.add (uname 1) tA], ?_⟩
  rw [runFrom_append, htr]
  have hadd := add_todo_some_of (uname 1) tA
    (phase2Store (MAX_TODO_PER_USER * MAX_USERS - 1))
    [{ id := 1, task := tA }] tA_len
    (phase2_lookup (MAX_TODO_PER_USER * MAX_USERS - 1))
    (by simp [MAX_TODO_PER_USER])
  show applyOp (Op.add (uname 1) tA)
    (phase2Store (MAX_TODO_PER_USER * MAX_USERS - 1)) = stuckStore
  rw [applyOp_add_some _ _ _ _ hadd]
  have harith : MAX_TODO_PER_USER * MAX_USERS - 1 + 1 = stuckId := by decide
  simp [phase2Store, mapUpdate, harith, stuckStore, stuckTodo]

/-- The stuck record sits in the first caller entry. -/
def StuckIn (s : Store) : Prop :=
  stuckTodo ∈ (mapLookup s.todos (uname 1)).getD []

theorem stuck_insane (s : Store) (h : user_count s ≤ MAX_USERS) :
    is_id_sane s stuckId = false := by
  simp [is_id_sane, stuckId]
  exact Nat.mul_le_mul_left _ h

theorem stuck_preserved (op : Op) (s : Store)
    (h : StoreInv s ∧ StuckIn s) :
    StoreInv (applyOp op s) ∧ StuckIn (applyOp op s) := by
  obtain ⟨hInv, hP⟩ := h
  refine ⟨storeInv_applyOp op s hInv, ?_⟩
  unfold StuckIn at hP
  cases hl : mapLookup s.todos (uname 1) with
  | none =>
      rw [hl] at hP
      simp at hP
  | some v =>
      rw [hl] at hP
      simp only [Option.getD_some] at hP
      cases hstep : stepOp op s with
      | none =>
          rw [applyOp_of_none op s hstep]
          unfold StuckIn
          rw [hl]
          simpa using hP
      | some s' =>
          rw [applyOp_of_some op s s' hstep]
          unfold StuckIn
          cases op with
          | get c =>
              injection hstep with hs
              subst hs
              rw [hl]
              simpa using hP
          | add c t =>
              obtain ⟨h1, hc, hcase⟩ := add_todo_some_inv c t s s' hstep
              rcases hcase with ⟨l, hm, hlen, htd⟩ | ⟨hm, hcnt, htd⟩
              · rw [htd]
                by_cases hcc : uname 1 = c
                · subst hcc
                  rw [mapLookup_mapUpdate_self, hl]
                  simp only [Option.map_some', Option.getD_some]
                  exact List.mem_append_left _ hP
                · rw [mapLookup_mapUpdate_other s.todos c (uname 1) _ hcc, hl]
                  simpa using hP
              · rw [htd, mapLookup_append, hl]
                simpa using hP
          | update c id t =>
              obtain ⟨hc, htd, hlen, hsane⟩ := update_todo_some_inv c id t s s' hstep
              have hid : stuckTodo.id ≠ id := by
                intro he
                rw [← he] at hsane
                have hsane' : is_id_sane s stuckId = true := hsane
                rw [stuck_insane s hInv.1] at hsane'
                cases hsane'
              rw [htd]
              by_cases hcc : uname 1 = c
              · subst hcc
                rw [mapLookup_mapUpdate_self, hl]
                simp only [Option.map_some', Option.getD_some]
                exact mem_updateFirst_of_ne id t v stuckTodo hP hid
              · rw [mapLookup_mapUpdate_other s.todos c (uname 1) _ hcc, hl]
                simpa using hP
          | delete c id =>
              obtain ⟨hc, htd, hsane⟩ := delete_todo_some_inv c id s s' hstep
              have hid : stuckTodo.id ≠ id := by
                intro he
                rw [← he] at hsane
                have hsane' : is_id_sane s stuckId = true := hsane
                rw [stuck_insane s hInv.1] at hsane'
                cases hsane'
              rw [htd]
              by_cases hcc : uname 1 = c
              · subst hcc
                rw [mapLookup_mapUpdate_self, hl]
                simp only [Option.map_some', Option.getD_some]
                exact List.mem_filter.2 ⟨hP, by simpa using hid⟩
              · rw [mapLookup_mapUpdate_other s.todos c (uname 1) _ hcc, hl]
                simpa using hP

theorem stuck_run (s : Store) (tr : List Op) (h : StoreInv s ∧ StuckIn s) :
    StoreInv (runFrom s tr) ∧ StuckIn (runFrom s tr) := by
  induction tr generalizing s with
  | nil => exact h
  | cons op tr ih => exact ih (applyOp op s) (stuck_preserved op s h)

/-- C10: there is a reachable store in which the first caller owns a
record whose id fails is_id_sane (the global counter grows past
deletions until the id reaches MAX_TODO_PER_USER times MAX_USERS, a
bound the moving user count can never lift), the record persists in
every state reachable from there, and every update_todo and
delete_todo call by its owner on that record aborts forever. -/
theorem C10_stuck_record :
    ∃ s, Reachable s ∧
      stuckTodo ∈ (mapLookup s.todos (uname 1)).getD [] ∧
      is_id_sane s stuckId = false ∧
      ∀ tr, stuckTodo ∈ (mapLookup (runFrom s tr).todos (uname 1)).getD [] ∧
        (∀ task, update_todo (uname 1) stuckId task (runFrom s tr) = none) ∧
        delete_todo (uname 1) stuckId (runFrom s tr) = none := by
  have hInv0 : StoreInv stuckStore := reachable_storeInv _ stuck_reach
  have hP0 : StuckIn stuckStore := by
    unfold StuckIn
    simp [stuckStore, mapLookup]
  refine ⟨stuckStore, stuck_reach, hP0, stuck_insane _ hInv0.1, ?_⟩
  intro tr
  obtain ⟨hInv, hP⟩ := stuck_run stuckStore tr ⟨hInv0, hP0⟩
  refine ⟨hP, ?_, ?_⟩
  · intro task
    rw [update_todo_none_iff]
    exact Or.inr (stuck_insane _ hInv.1)
  · rw [delete_todo_none_iff]
    exact stuck_insane _ hInv.1
